import Mathlib

/-!
Shallow embedding of the VOID confidential-vault program
(src/server/programs/anonymaus-executor/src/lib.rs).

Byte buffers are `List Nat` (each cell a byte value), machine integers are
`Nat` with explicit `% 2^w` where the source wraps.  The confidential-compute
coprocessor (the "Inco" program) is an oracle `IncoCall → Option Nat`:
`none` models a failed CPI or a malformed/undersized return payload, and a
returned value is truncated to 16 little-endian bytes exactly as
`inco_return_u128` reads it.  Every operation returns the final state it
wrote (mutations the program itself performed before an early return stay
visible, mirroring the program's own write order), together with the list
of coprocessor calls it issued, in order.
-/

set_option maxHeartbeats 1000000

namespace Void

/-- Error kinds, mirroring the `solana_program::program_error::ProgramError`
variants the program returns. -/
inductive PErr where
  | invalidInstructionData
  | invalidAccountData
  | missingRequiredSignature
  | invalidArgument
  | insufficientFunds
  | uninitializedAccount
  | notEnoughAccountKeys
  | externalError
deriving DecidableEq

/-- A 32-byte public key (`solana_program::pubkey::Pubkey`). -/
def Pubkey : Type := { l : List Nat // l.length = 32 }

instance : DecidableEq Pubkey := fun a b =>
  decidable_of_iff (a.val = b.val) Subtype.ext_iff.symm

/-- `Pubkey::default()`: the all-zero key. -/
def zeroKey : Pubkey := ⟨List.replicate 32 0, by simp⟩

/-- Little-endian byte encoding of a natural number on `k` bytes
(`to_le_bytes`). -/
def leBytes : Nat → Nat → List Nat
  | 0, _ => []
  | k + 1, n => n % 256 :: leBytes k (n / 256)

/-- Little-endian decoding of a byte list (`from_le_bytes`). -/
def fromLE : List Nat → Nat
  | [] => 0
  | b :: r => b + 256 * fromLE r

/-- Account addresses.  Ordinary accounts are raw 32-byte keys; the three
program-derived addresses that the program ever computes with
`Pubkey::find_program_address` are modelled by dedicated constructors, which
encodes the collision resistance of the derivation across distinct seed
lists (seeds `[b"executor"]`, `[b"vault"]`, `[b"user_deposit", user]`). -/
inductive Addr where
  | key : Pubkey → Addr
  | executorPda : Addr
  | vaultPda : Addr
  | userDepositPda : Pubkey → Addr
deriving DecidableEq

/-- The 32 raw bytes of an address (`key.as_ref()` / storing `*key` in a
record).  The raw bytes of a program-derived address are an opaque hash;
they are modelled by a fixed placeholder, which no theorem below relies on
(derived addresses are compared as `Addr` values, never through bytes). -/
def Addr.toPubkey : Addr → Pubkey
  | .key b => b
  | _ => zeroKey

/-- One entry of the instruction's account array: its address and whether it
signed the transaction.  Lamports and data live in the `State`. -/
structure AccInfo where
  key : Addr
  isSigner : Bool
deriving DecidableEq

/-- On-chain account contents. -/
structure Account where
  lamports : Nat
  data : List Nat
deriving DecidableEq

/-- Persisted ledger state: the contents of every account. -/
def State := Addr → Account

/-- Functional account update. -/
def setAcc (s : State) (a : Addr) (v : Account) : State :=
  fun x => if x = a then v else s x

/-- A request to the confidential-compute coprocessor, carrying exactly the
arguments the corresponding `inco_*` helper serializes after the sighash. -/
inductive IncoCall where
  | newEuint128 : List Nat → Nat → IncoCall
  | asEuint128 : Nat → IncoCall
  | eAdd : Nat → Nat → IncoCall
  | eSub : Nat → Nat → IncoCall
  | eGe : Nat → Nat → IncoCall
  | eEq : Nat → Nat → IncoCall
deriving DecidableEq

/-- Issue one coprocessor call: `invoke` followed by `inco_return_u128`,
which reads back a 16-byte little-endian value (hence the `% 2^128`).
`none` models a failed CPI or missing/undersized return data. -/
def incoCall (oracle : IncoCall → Option Nat) (c : IncoCall) : Option Nat :=
  (oracle c).map (fun v => v % 2 ^ 128)

/-- Result of one operation: the error (if any), the state as the program
left it, and the coprocessor calls issued, in order. -/
structure ExecOut where
  err : Option PErr
  state : State
  calls : List IncoCall

/-- `system_instruction::create_account` semantics: fails when the target
account already has lamports or data, or the payer cannot fund it;
otherwise debits the payer and installs a zero-filled account of the
requested size. -/
def createAccount (payer newAcc : Addr) (lamports size : Nat) (s : State) :
    Option State :=
  if (s newAcc).lamports ≠ 0 ∨ (s newAcc).data ≠ [] ∨ (s payer).lamports < lamports then
    none
  else
    some (setAcc
      (setAcc s payer { s payer with lamports := (s payer).lamports - lamports })
      newAcc ⟨lamports, List.replicate size 0⟩)

/-- `system_instruction::transfer` semantics: fails when the source carries
data or has insufficient lamports. -/
def sysTransfer (src dst : Addr) (amount : Nat) (s : State) : Option State :=
  if (s src).data ≠ [] ∨ (s src).lamports < amount then none
  else
    let s1 := setAcc s src { s src with lamports := (s src).lamports - amount }
    some (setAcc s1 dst { s1 dst with lamports := (s1 dst).lamports + amount })

/-- Wrapping `u64` subtraction (direct lamport arithmetic in the source,
release-profile two's-complement semantics). -/
def wsub (a b : Nat) : Nat := (a + (2 ^ 64 - b % 2 ^ 64)) % 2 ^ 64

/-- Wrapping `u64` addition. -/
def wadd (a b : Nat) : Nat := (a + b) % 2 ^ 64

/-! ## Account codecs (`impl Pack for Executor` / `impl Pack for UserDeposit`) -/

/-- The delegate-configuration record (`struct Executor`). -/
structure Executor where
  execution_account : Pubkey
  authority : Pubkey
  is_initialized : Bool
deriving DecidableEq

/-- `Executor::LEN = 32 + 32 + 1`. -/
def Executor.LEN : Nat := 65

/-- `Executor::pack_into_slice`: returns the buffer untouched when it is
shorter than `LEN`, otherwise writes the fixed layout over its first 65
bytes. -/
def Executor.packIntoSlice (r : Executor) (dst : List Nat) : List Nat :=
  if dst.length < Executor.LEN then dst
  else
    r.execution_account.val ++ r.authority.val ++
      [if r.is_initialized then 1 else 0] ++ dst.drop 65

/-- `Executor::unpack_from_slice`. -/
def Executor.unpackFromSlice (src : List Nat) : Option Executor :=
  if h : src.length < Executor.LEN then none
  else
    some
      { execution_account := ⟨src.take 32, by
          simp [List.length_take]
          unfold Executor.LEN at h
          omega⟩
        authority := ⟨(src.drop 32).take 32, by
          simp [List.length_take]
          unfold Executor.LEN at h
          omega⟩
        is_initialized := src.getD 64 0 = 1 }

/-- `Pack::unpack` for `Executor`: exact-length check, decode, then the
`IsInitialized` gate. -/
def Executor.unpack (src : List Nat) : Except PErr Executor :=
  if src.length ≠ Executor.LEN then .error .invalidAccountData
  else
    match Executor.unpackFromSlice src with
    | none => .error .invalidAccountData
    | some r => if r.is_initialized then .ok r else .error .uninitializedAccount

/-- The participant record (`struct UserDeposit`): owner plus the opaque
encrypted-balance handle (a `u128`). -/
structure UserDeposit where
  user : Pubkey
  balance : Nat
deriving DecidableEq

/-- `UserDeposit::LEN = 32 + 16`. -/
def UserDeposit.LEN : Nat := 48

/-- `UserDeposit::pack_into_slice`. -/
def UserDeposit.packIntoSlice (r : UserDeposit) (dst : List Nat) : List Nat :=
  if dst.length < UserDeposit.LEN then dst
  else r.user.val ++ leBytes 16 r.balance ++ dst.drop 48

/-- `UserDeposit::unpack_from_slice`. -/
def UserDeposit.unpackFromSlice (src : List Nat) : Option UserDeposit :=
  if h : src.length < UserDeposit.LEN then none
  else
    some
      { user := ⟨src.take 32, by
          simp [List.length_take]
          unfold UserDeposit.LEN at h
          omega⟩
        balance := fromLE ((src.drop 32).take 16) }

/-- `IsInitialized for UserDeposit`: `balance > 0 || user != Pubkey::default()`. -/
def UserDeposit.isInit (r : UserDeposit) : Prop :=
  r.balance > 0 ∨ r.user ≠ zeroKey

instance (r : UserDeposit) : Decidable r.isInit := by
  unfold UserDeposit.isInit; infer_instance

/-- `Pack::unpack` for `UserDeposit`. -/
def UserDeposit.unpack (src : List Nat) : Except PErr UserDeposit :=
  if src.length ≠ UserDeposit.LEN then .error .invalidAccountData
  else
    match UserDeposit.unpackFromSlice src with
    | none => .error .invalidAccountData
    | some r => if r.isInit then .ok r else .error .uninitializedAccount

/-! ## The four operations (`initialize`, `deposit`, `withdraw`,
`execute_with_intent`).  Each is translated in source order; helper
definitions split the straight-line tail that follows a lazily-created
account, so that both the created and the pre-existing branch continue into
the same code, exactly as the Rust falls through its `if` blocks.
`initialize` is a Lean keyword, hence the `initializeOp` name. -/

/-- Tail of `initialize` from line 284 on: build the `Executor` record from
the parsed execution account and the signing authority, and pack it into the
configuration account.  Note: the record is written unconditionally; the
pre-existing record is never read. -/
def initializeWrite (executorA authority : AccInfo) (executionAccount : Pubkey)
    (s : State) : ExecOut :=
  let ex : Executor := ⟨executionAccount, authority.key.toPubkey, true⟩
  ⟨none,
    setAcc s executorA.key
      { s executorA.key with
        data := Executor.packIntoSlice ex ((s executorA.key).data) },
    []⟩

/-- `initialize` (lib.rs lines 215-296). -/
def initializeOp (rentMin : Nat → Nat) (accounts : List AccInfo)
    (data : List Nat) (s : State) : ExecOut :=
  match accounts with
  | executorA :: authority :: _sysProg :: _ =>
    if executorA.key ≠ Addr.executorPda then ⟨some .invalidAccountData, s, []⟩
    else if ¬ authority.isSigner then ⟨some .missingRequiredSignature, s, []⟩
    else if h : data.length < 32 then ⟨some .invalidInstructionData, s, []⟩
    else
      let executionAccount : Pubkey := ⟨data.take 32, by simp [List.length_take]; omega⟩
      if (s executorA.key).lamports = 0 then
        match createAccount authority.key executorA.key (rentMin Executor.LEN)
            Executor.LEN s with
        | none => ⟨some .externalError, s, []⟩
        | some s1 => initializeWrite executorA authority executionAccount s1
      else initializeWrite executorA authority executionAccount s
  | _ => ⟨some .notEnoughAccountKeys, s, []⟩

/-- The parsed deposit payload (lib.rs lines 354-370):
`amount(8 LE) | ciphertext_len(4 LE) | ciphertext(var) | input_type(1)`. -/
structure DepositArgs where
  amount : Nat
  ciphertext : List Nat
  inputType : Nat
deriving DecidableEq

/-- Length-checked parse of the deposit payload (lib.rs lines 354-370). -/
def parseDeposit (data : List Nat) : Except PErr DepositArgs :=
  if data.length < 13 then .error .invalidInstructionData
  else
    let ciphertextLen := fromLE ((data.drop 8).take 4)
    if data.length < 12 + ciphertextLen + 1 then .error .invalidInstructionData
    else
      .ok ⟨fromLE (data.take 8), (data.drop 12).take ciphertextLen,
        data.getD (12 + ciphertextLen) 0⟩

/-- Tail of `deposit` from line 492 on: ingest the supplied ciphertext,
homomorphically add it to the record's balance handle, and pack the record. -/
def depositAdd (oracle : IncoCall → Option Nat) (userDep : AccInfo)
    (ciphertext : List Nat) (inputType : Nat) (ud : UserDeposit)
    (acc : List IncoCall) (s3 : State) : ExecOut :=
  let c1 := IncoCall.newEuint128 ciphertext inputType
  match incoCall oracle c1 with
  | none => ⟨some .externalError, s3, acc ++ [c1]⟩
  | some encAmt =>
    let c2 := IncoCall.eAdd ud.balance encAmt
    match incoCall oracle c2 with
    | none => ⟨some .externalError, s3, acc ++ [c1, c2]⟩
    | some nb =>
      ⟨none,
        setAcc s3 userDep.key
          { s3 userDep.key with
            data := UserDeposit.packIntoSlice ⟨ud.user, nb⟩
              ((s3 userDep.key).data) },
        acc ++ [c1, c2]⟩

/-- Tail of `deposit` from line 461 on: size-check the record account,
treat a zero first data byte as uninitialized, re-encrypt zero when the
balance handle is zero, then fall through to the homomorphic add. -/
def depositFinish (oracle : IncoCall → Option Nat) (user userDep : AccInfo)
    (ciphertext : List Nat) (inputType : Nat) (s3 : State) : ExecOut :=
  let d3 := (s3 userDep.key).data
  if d3.length < UserDeposit.LEN then ⟨some .invalidAccountData, s3, []⟩
  else
    match
      (if d3.getD 0 0 = 0 then Except.ok ⟨user.key.toPubkey, 0⟩
       else UserDeposit.unpack d3 : Except PErr UserDeposit) with
    | .error e => ⟨some e, s3, []⟩
    | .ok ud0 =>
      if ud0.balance = 0 then
        match incoCall oracle (.asEuint128 0) with
        | none => ⟨some .externalError, s3, [.asEuint128 0]⟩
        | some z =>
          depositAdd oracle userDep ciphertext inputType
            ⟨user.key.toPubkey, z⟩ [.asEuint128 0] s3
      else depositAdd oracle userDep ciphertext inputType ud0 [] s3

/-- Tail of `deposit` from line 411 on: transfer the native amount from the
user to the vault, lazily create the participant record account, then fall
through to the balance update. -/
def depositTransfer (rentMin : Nat → Nat) (oracle : IncoCall → Option Nat)
    (vault user userDep : AccInfo) (args : DepositArgs) (s : State) : ExecOut :=
  match sysTransfer user.key vault.key args.amount s with
  | none => ⟨some .externalError, s, []⟩
  | some s2 =>
    if (s2 userDep.key).lamports = 0 then
      match createAccount user.key userDep.key (rentMin UserDeposit.LEN)
          UserDeposit.LEN s2 with
      | none => ⟨some .externalError, s2, []⟩
      | some s3 => depositFinish oracle user userDep args.ciphertext args.inputType s3
    else depositFinish oracle user userDep args.ciphertext args.inputType s2

/-- `deposit` (lib.rs lines 313-500). -/
def deposit (rentMin : Nat → Nat) (oracle : IncoCall → Option Nat)
    (accounts : List AccInfo) (data : List Nat) (s : State) : ExecOut :=
  match accounts with
  | vault :: user :: userDep :: _inco0 :: _sysProg :: _incoP :: _ =>
    if ¬ user.isSigner then ⟨some .missingRequiredSignature, s, []⟩
    else if vault.key ≠ Addr.vaultPda then ⟨some .invalidAccountData, s, []⟩
    else if userDep.key ≠ Addr.userDepositPda user.key.toPubkey then
      ⟨some .invalidAccountData, s, []⟩
    else
      match parseDeposit data with
      | .error e => ⟨some e, s, []⟩
      | .ok args =>
        if args.amount = 0 then ⟨some .invalidArgument, s, []⟩
        else
          if (s vault.key).lamports = 0 then
            -- the source re-derives and re-checks the vault PDA here
            if vault.key ≠ Addr.vaultPda then ⟨some .invalidAccountData, s, []⟩
            else
              match createAccount user.key vault.key (rentMin 0) 0 s with
              | none => ⟨some .externalError, s, []⟩
              | some s1 => depositTransfer rentMin oracle vault user userDep args s1
          else depositTransfer rentMin oracle vault user userDep args s
  | _ => ⟨some .notEnoughAccountKeys, s, []⟩

/-- `withdraw` (lib.rs lines 510-586). -/
def withdraw (oracle : IncoCall → Option Nat) (accounts : List AccInfo)
    (data : List Nat) (s : State) : ExecOut :=
  match accounts with
  | vault :: user :: userDep :: _ =>
    if ¬ user.isSigner then ⟨some .missingRequiredSignature, s, []⟩
    else if vault.key ≠ Addr.vaultPda then ⟨some .invalidAccountData, s, []⟩
    else if userDep.key ≠ Addr.userDepositPda user.key.toPubkey then
      ⟨some .invalidAccountData, s, []⟩
    else if data.length < 8 then ⟨some .invalidInstructionData, s, []⟩
    else
      let amount := fromLE (data.take 8)
      match UserDeposit.unpack ((s userDep.key).data) with
      | .error e => ⟨some e, s, []⟩
      | .ok ud0 =>
        if ud0.user ≠ user.key.toPubkey then ⟨some .invalidAccountData, s, []⟩
        else
          let c1 := IncoCall.asEuint128 amount
          match incoCall oracle c1 with
          | none => ⟨some .externalError, s, [c1]⟩
          | some encAmt =>
            let c2 := IncoCall.eGe ud0.balance encAmt
            match incoCall oracle c2 with
            | none => ⟨some .externalError, s, [c1, c2]⟩
            | some suff =>
              if suff = 0 then ⟨some .insufficientFunds, s, [c1, c2]⟩
              else
                let c3 := IncoCall.eSub ud0.balance encAmt
                match incoCall oracle c3 with
                | none => ⟨some .externalError, s, [c1, c2, c3]⟩
                | some nb =>
                  -- persist the record, then move the lamports
                  let s1 := setAcc s userDep.key
                    { s userDep.key with
                      data := UserDeposit.packIntoSlice ⟨ud0.user, nb⟩
                        ((s userDep.key).data) }
                  let s2 := setAcc s1 vault.key
                    { s1 vault.key with
                      lamports := wsub (s1 vault.key).lamports amount }
                  let s3 := setAcc s2 user.key
                    { s2 user.key with
                      lamports := wadd (s2 user.key).lamports amount }
                  ⟨none, s3, [c1, c2, c3]⟩
  | _ => ⟨some .notEnoughAccountKeys, s, []⟩

/-- The parsed delegated-intent payload (lib.rs lines 663-711):
`intent_hash(32) | signature_length(4 LE) | signature(var) | amount(8 LE) |
ciphertext_len(4 LE) | ciphertext(var) | input_type(1)`. -/
structure IntentArgs where
  intentHash : List Nat
  signature : List Nat
  amount : Nat
  ciphertext : List Nat
  inputType : Nat
deriving DecidableEq

/-- Length-checked parse of the delegated-intent payload (lib.rs lines
663-711), rejecting any truncation before anything else runs. -/
def parseIntent (data : List Nat) : Except PErr IntentArgs :=
  if data.length < 36 then .error .invalidInstructionData
  else
    let sigLen := fromLE ((data.drop 32).take 4)
    if data.length < 36 + sigLen + 8 + 4 + 1 then .error .invalidInstructionData
    else
      let amountOff := 36 + sigLen
      let ctLen := fromLE ((data.drop (amountOff + 8)).take 4)
      let ctStart := amountOff + 8 + 4
      let ctEnd := ctStart + ctLen
      if data.length < ctEnd + 1 then .error .invalidInstructionData
      else
        .ok ⟨data.take 32, (data.drop 36).take sigLen,
          fromLE ((data.drop amountOff).take 8),
          (data.drop ctStart).take ctLen, data.getD ctEnd 0⟩

/-- Tail of `execute_with_intent` from line 743 on: deduct the encrypted
balance, persist the record, then move the lamports from the vault to the
execution account. -/
def executeSettle (oracle : IncoCall → Option Nat)
    (vault userDep execution : AccInfo) (args : IntentArgs)
    (ud0 : UserDeposit) (encAmt : Nat) (acc : List IncoCall) (s : State) :
    ExecOut :=
  let c5 := IncoCall.eSub ud0.balance encAmt
  match incoCall oracle c5 with
  | none => ⟨some .externalError, s, acc ++ [c5]⟩
  | some nb =>
    let s1 := setAcc s userDep.key
      { s userDep.key with
        data := UserDeposit.packIntoSlice ⟨ud0.user, nb⟩ ((s userDep.key).data) }
    let s2 := setAcc s1 vault.key
      { s1 vault.key with lamports := wsub (s1 vault.key).lamports args.amount }
    let s3 := setAcc s2 execution.key
      { s2 execution.key with
        lamports := wadd (s2 execution.key).lamports args.amount }
    ⟨none, s3, acc ++ [c5]⟩

/-- Tail of `execute_with_intent` from line 725 on: bind the supplied
ciphertext to the plaintext amount via `equal`, check solvency via
`greater_or_equal`, then settle. -/
def executeChecks (oracle : IncoCall → Option Nat)
    (vault userDep execution : AccInfo) (args : IntentArgs)
    (ud0 : UserDeposit) (s : State) : ExecOut :=
  let c1 := IncoCall.newEuint128 args.ciphertext args.inputType
  match incoCall oracle c1 with
  | none => ⟨some .externalError, s, [c1]⟩
  | some encAmt =>
    let c2 := IncoCall.asEuint128 args.amount
    match incoCall oracle c2 with
    | none => ⟨some .externalError, s, [c1, c2]⟩
    | some plainAmt =>
      let c3 := IncoCall.eEq encAmt plainAmt
      match incoCall oracle c3 with
      | none => ⟨some .externalError, s, [c1, c2, c3]⟩
      | some m =>
        if m = 0 then ⟨some .invalidArgument, s, [c1, c2, c3]⟩
        else
          let c4 := IncoCall.eGe ud0.balance encAmt
          match incoCall oracle c4 with
          | none => ⟨some .externalError, s, [c1, c2, c3, c4]⟩
          | some suff =>
            if args.amount = 0 ∨ suff = 0 then
              ⟨some .insufficientFunds, s, [c1, c2, c3, c4]⟩
            else
              executeSettle oracle vault userDep execution args ud0 encAmt
                [c1, c2, c3, c4] s

/-- `execute_with_intent` (lib.rs lines 607-762). -/
def executeWithIntent (oracle : IncoCall → Option Nat)
    (accounts : List AccInfo) (data : List Nat) (s : State) : ExecOut :=
  match accounts with
  | executorA :: vault :: userDep :: user :: execution :: _sysProg :: _incoP :: _ =>
    if executorA.key ≠ Addr.executorPda then ⟨some .invalidAccountData, s, []⟩
    else
      match Executor.unpack ((s executorA.key).data) with
      | .error e => ⟨some e, s, []⟩
      | .ok ex =>
        if ex.execution_account ≠ execution.key.toPubkey then
          ⟨some .invalidAccountData, s, []⟩
        else if ¬ execution.isSigner then ⟨some .missingRequiredSignature, s, []⟩
        else if vault.key ≠ Addr.vaultPda then ⟨some .invalidAccountData, s, []⟩
        else if userDep.key ≠ Addr.userDepositPda user.key.toPubkey then
          ⟨some .invalidAccountData, s, []⟩
        else
          match parseIntent data with
          | .error e => ⟨some e, s, []⟩
          | .ok args =>
            if args.signature = [] then ⟨some .invalidArgument, s, []⟩
            else
              match UserDeposit.unpack ((s userDep.key).data) with
              | .error e => ⟨some e, s, []⟩
              | .ok ud0 =>
                if ud0.user ≠ user.key.toPubkey then
                  ⟨some .invalidAccountData, s, []⟩
                else executeChecks oracle vault userDep execution args ud0 s
  | _ => ⟨some .notEnoughAccountKeys, s, []⟩

/-- `process_instruction` (lib.rs lines 185-205): one-byte tag dispatch. -/
def processInstruction (rentMin : Nat → Nat) (oracle : IncoCall → Option Nat)
    (accounts : List AccInfo) (data : List Nat) (s : State) : ExecOut :=
  match data with
  | [] => ⟨some .invalidInstructionData, s, []⟩
  | tag :: rest =>
    if tag = 0 then initializeOp rentMin accounts rest s
    else if tag = 1 then deposit rentMin oracle accounts rest s
    else if tag = 2 then withdraw oracle accounts rest s
    else if tag = 3 then executeWithIntent oracle accounts rest s
    else ⟨some .invalidInstructionData, s, []⟩

/-! ## Whole-system runs (for trace invariants) -/

/-- One external invocation of the program: its environment (rent schedule
and coprocessor oracle), the account array and the full instruction
payload. -/
structure Call where
  rent : Nat → Nat
  oracle : IncoCall → Option Nat
  accounts : List AccInfo
  data : List Nat

/-- Run a sequence of invocations; each observes the state the previous one
left (partial mutations of a failed invocation included, which is the
stronger semantics: under the host's transaction rollback a failed call
would leave the state unchanged, a special case). -/
def runCalls (cs : List Call) (s : State) : State :=
  match cs with
  | [] => s
  | c :: r => runCalls r ((processInstruction c.rent c.oracle c.accounts c.data s).state)

/-- Initial condition: no participant-record account holds data yet (the
program's records are created lazily by it alone). -/
def InitCond (s : State) : Prop :=
  ∀ u : Pubkey, (s (Addr.userDepositPda u)).data = []

/-- Owner-slot invariant: every participant-record account is empty, freshly
zero-filled, or stores as owner exactly the key its address was derived
from. -/
def Inv (s : State) : Prop :=
  ∀ u : Pubkey,
    (s (Addr.userDepositPda u)).data = []
    ∨ ((s (Addr.userDepositPda u)).data).take 32 = u.val
    ∨ (s (Addr.userDepositPda u)).data = List.replicate 48 0

/-- The participant record derived from `u` exists and its owner field is
set to `o` (a non-default key). -/
def ownerIs (s : State) (u o : Pubkey) : Prop :=
  (s (Addr.userDepositPda u)).data ≠ []
  ∧ ((s (Addr.userDepositPda u)).data).take 32 = o.val
  ∧ o ≠ zeroKey

/-- How one invocation may change the data of the participant-record
account derived from `u`: unchanged, zero-filled from empty (lazy creation),
repacked with owner `u`, or repacked preserving the stored owner of a
record whose first data byte was nonzero. -/
def udOk (old new : List Nat) (u : Pubkey) : Prop :=
  new = old
  ∨ (old = [] ∧ new = List.replicate 48 0)
  ∨ (new ≠ [] ∧ new.take 32 = u.val)
  ∨ (new ≠ [] ∧ new.take 32 = old.take 32 ∧ old.getD 0 0 ≠ 0)

/-! ## Concrete scenario constants used by counterexamples and witnesses -/

def kUser : Pubkey := ⟨1 :: List.replicate 31 0, by decide⟩
def kA : Pubkey := ⟨2 :: List.replicate 31 0, by decide⟩
def kB : Pubkey := ⟨3 :: List.replicate 31 0, by decide⟩
def kE : Pubkey := ⟨4 :: List.replicate 31 0, by decide⟩
def kE2 : Pubkey := ⟨5 :: List.replicate 31 0, by decide⟩

/-- An owner key whose first byte is zero. -/
def ownerZ : Pubkey := ⟨0 :: 9 :: List.replicate 30 0, by decide⟩

/-- A state with nothing in it. -/
def emptyState : State := fun _ => ⟨0, []⟩

/-- State for the C1 counterexample: the vault exists, the user is funded,
and the participant-record account exists (has lamports) but with empty
data, so the size validation fails after the native transfer. -/
def cexDepositState : State := fun a =>
  if a = Addr.vaultPda then ⟨10, []⟩
  else if a = Addr.key kUser then ⟨100, []⟩
  else if a = Addr.userDepositPda kUser then ⟨1, []⟩
  else ⟨0, []⟩

/-- The account array of a well-formed deposit by `kUser`. -/
def depositAccounts : List AccInfo :=
  [⟨Addr.vaultPda, false⟩, ⟨Addr.key kUser, true⟩,
   ⟨Addr.userDepositPda kUser, false⟩, ⟨Addr.key kA, false⟩,
   ⟨Addr.key kA, false⟩, ⟨Addr.key kA, false⟩]

/-- State for the C2 counterexample: the configuration record exists and
names `kA` as controlling authority; the caller `kB` is funded. -/
def cexInitState : State := fun a =>
  if a = Addr.executorPda then
    ⟨1, Executor.packIntoSlice ⟨kE, kA, true⟩ (List.replicate 65 0)⟩
  else if a = Addr.key kB then ⟨100, []⟩
  else ⟨0, []⟩

/-- State for the C3 counterexample: a pre-existing participant record whose
stored owner key starts with byte 0 and whose stored balance handle is 7. -/
def cexHandleState : State := fun a =>
  if a = Addr.vaultPda then ⟨10, []⟩
  else if a = Addr.key kUser then ⟨100, []⟩
  else if a = Addr.userDepositPda kUser then
    ⟨1, UserDeposit.packIntoSlice ⟨ownerZ, 7⟩ (List.replicate 48 0)⟩
  else ⟨0, []⟩

/-- Oracle for the C3 counterexample: encryption of zero is handle 2, the
ingested ciphertext is handle 3, their sum is handle 5. -/
def orcHandle : IncoCall → Option Nat := fun c =>
  match c with
  | .asEuint128 0 => some 2
  | .newEuint128 _ _ => some 3
  | .eAdd 2 3 => some 5
  | _ => none

/-- State whose participant record stores owner `kUser` (nonzero first
byte) and balance handle 7. -/
def keepHandleState : State := fun a =>
  if a = Addr.vaultPda then ⟨10, []⟩
  else if a = Addr.key kUser then ⟨100, []⟩
  else if a = Addr.userDepositPda kUser then
    ⟨1, UserDeposit.packIntoSlice ⟨kUser, 7⟩ (List.replicate 48 0)⟩
  else ⟨0, []⟩

/-- Oracle that keeps handles: ingested ciphertext is handle 3, the sum of
the stored handle 7 with it is handle 9. -/
def orcKeep : IncoCall → Option Nat := fun c =>
  match c with
  | .newEuint128 _ _ => some 3
  | .eAdd 7 3 => some 9
  | _ => none

/-- Oracle for the C5 witness: the requested amount 4 encrypts to handle
11, and `greater_or_equal` of the stored handle 7 against it decodes 0. -/
def orcGeFalse : IncoCall → Option Nat := fun c =>
  match c with
  | .asEuint128 4 => some 11
  | .eGe 7 11 => some 0
  | _ => none

/-- The account array of a well-formed withdraw by `kUser`. -/
def withdrawAccounts : List AccInfo :=
  [⟨Addr.vaultPda, false⟩, ⟨Addr.key kUser, true⟩,
   ⟨Addr.userDepositPda kUser, false⟩]

/-- State for the delegated-execute scenarios: configuration record naming
`kE` as execution account, and a participant record of `kUser` with stored
balance handle 7. -/
def execState : State := fun a =>
  if a = Addr.executorPda then
    ⟨1, Executor.packIntoSlice ⟨kE, kA, true⟩ (List.replicate 65 0)⟩
  else if a = Addr.vaultPda then ⟨10, []⟩
  else if a = Addr.userDepositPda kUser then
    ⟨1, UserDeposit.packIntoSlice ⟨kUser, 7⟩ (List.replicate 48 0)⟩
  else ⟨0, []⟩

/-- The account array of a well-formed delegated execute for `kUser` with
receiver `kE`. -/
def execAccounts : List AccInfo :=
  [⟨Addr.executorPda, false⟩, ⟨Addr.vaultPda, false⟩,
   ⟨Addr.userDepositPda kUser, false⟩, ⟨Addr.key kUser, false⟩,
   ⟨Addr.key kE, true⟩, ⟨Addr.key kA, false⟩, ⟨Addr.key kA, false⟩]

/-- Intent payload: 32-byte hash, 1-byte signature, amount 4, 1-byte
ciphertext `[9]`, input type 0. -/
def execData : List Nat :=
  List.replicate 32 0 ++ [1,0,0,0] ++ [1] ++ [4,0,0,0,0,0,0,0] ++
    [1,0,0,0] ++ [9] ++ [0]

/-- Oracle for the C4 witness: the ingested ciphertext is handle 3, the
plaintext amount 4 encrypts to handle 11, and `equal` of the two decodes
0. -/
def orcEqFalse : IncoCall → Option Nat := fun c =>
  match c with
  | .newEuint128 _ _ => some 3
  | .asEuint128 4 => some 11
  | .eEq 3 11 => some 0
  | _ => none

/-! ## Helper lemmas -/

instance {ε α : Type} [DecidableEq ε] [DecidableEq α] :
    DecidableEq (Except ε α) := fun a b =>
  match a, b with
  | .ok x, .ok y => decidable_of_iff (x = y) (by simp)
  | .error x, .error y => decidable_of_iff (x = y) (by simp)
  | .ok _, .error _ => isFalse (by simp)
  | .error _, .ok _ => isFalse (by simp)

lemma leBytes_length (k n : Nat) : (leBytes k n).length = k := by
  induction k generalizing n with
  | zero => rfl
  | succ k ih => simp [leBytes, ih]

lemma fromLE_leBytes (k n : Nat) : fromLE (leBytes k n) = n % 256 ^ k := by
  induction k generalizing n with
  | zero => simp [leBytes, fromLE, Nat.mod_one]
  | succ k ih =>
    have h : (256 : Nat) ^ (k + 1) = 256 * 256 ^ k := by ring
    rw [leBytes, fromLE, ih, h, Nat.mod_mul]

lemma userDeposit_pack_unpack (r : UserDeposit) (dst : List Nat)
    (hd : UserDeposit.LEN ≤ dst.length) (hb : r.balance < 2 ^ 128) :
    UserDeposit.unpackFromSlice (UserDeposit.packIntoSlice r dst) = some r := by
  have hu : r.user.val.length = 32 := r.user.property
  have hlb : (leBytes 16 r.balance).length = 16 := leBytes_length 16 r.balance
  unfold UserDeposit.packIntoSlice UserDeposit.unpackFromSlice UserDeposit.LEN
  unfold UserDeposit.LEN at hd
  rw [if_neg (by omega)]
  have hlen : (r.user.val ++ leBytes 16 r.balance ++ dst.drop 48).length =
      dst.length := by
    simp [hu, hlb]; omega
  rw [dif_neg (by omega)]
  have htake : (r.user.val ++ leBytes 16 r.balance ++ dst.drop 48).take 32 =
      r.user.val := by
    rw [List.append_assoc, List.take_append_of_le_length (by omega),
      List.take_of_length_le (by omega)]
  have hdrop : (r.user.val ++ leBytes 16 r.balance ++ dst.drop 48).drop 32 =
      leBytes 16 r.balance ++ dst.drop 48 := by
    rw [List.append_assoc, List.drop_append_of_le_length (by omega),
      List.drop_of_length_le (by omega), List.nil_append]
  have hbal : ((r.user.val ++ leBytes 16 r.balance ++ dst.drop 48).drop 32).take 16 =
      leBytes 16 r.balance := by
    rw [hdrop, List.take_append_of_le_length (by omega),
      List.take_of_length_le (by omega)]
  congr 1
  cases r with
  | mk u b =>
    simp only [UserDeposit.mk.injEq]
    constructor
    · exact Subtype.ext htake
    · rw [hbal, fromLE_leBytes]
      have : (256 : Nat) ^ 16 = 2 ^ 128 := by norm_num
      rw [this]
      exact Nat.mod_eq_of_lt hb

lemma executor_pack_unpack (r : Executor) (dst : List Nat)
    (hd : Executor.LEN ≤ dst.length) :
    Executor.unpackFromSlice (Executor.packIntoSlice r dst) = some r := by
  have he : r.execution_account.val.length = 32 := r.execution_account.property
  have ha : r.authority.val.length = 32 := r.authority.property
  unfold Executor.packIntoSlice Executor.unpackFromSlice Executor.LEN
  unfold Executor.LEN at hd
  rw [if_neg (by omega)]
  set flag : List Nat := [if r.is_initialized then 1 else 0] with hflag
  have hf : flag.length = 1 := by rw [hflag]; rfl
  have hlen : (r.execution_account.val ++ r.authority.val ++ flag ++ dst.drop 65).length =
      dst.length := by
    simp [he, ha, hf]; omega
  rw [dif_neg (by omega)]
  have htake : (r.execution_account.val ++ r.authority.val ++ flag ++ dst.drop 65).take 32 =
      r.execution_account.val := by
    rw [List.append_assoc, List.append_assoc,
      List.take_append_of_le_length (by omega),
      List.take_of_length_le (by omega)]
  have hdrop : (r.execution_account.val ++ r.authority.val ++ flag ++ dst.drop 65).drop 32 =
      r.authority.val ++ (flag ++ dst.drop 65) := by
    rw [List.append_assoc, List.append_assoc,
      List.drop_append_of_le_length (by omega),
      List.drop_of_length_le (by omega), List.nil_append]
  have hauth : ((r.execution_account.val ++ r.authority.val ++ flag ++ dst.drop 65).drop 32).take 32 =
      r.authority.val := by
    rw [hdrop, List.take_append_of_le_length (by omega),
      List.take_of_length_le (by omega)]
  have hget : (r.execution_account.val ++ r.authority.val ++ flag ++ dst.drop 65).getD 64 0 =
      if r.is_initialized then 1 else 0 := by
    rw [List.append_assoc, List.append_assoc]
    rw [List.getD, List.get?_append_right (by omega), he]
    rw [List.get?_append_right (by omega), ha, hflag]
    rfl
  congr 1
  cases r with
  | mk e a i =>
    simp only [Executor.mk.injEq]
    refine ⟨Subtype.ext htake, Subtype.ext hauth, ?_⟩
    simp only at hget
    rw [hget]
    cases i <;> simp

/-! ## Error-frame lemmas: Initialize, Withdraw and DelegatedExecute leave
the state untouched whenever they return an error. -/

lemma initializeOp_err_frame (rm : Nat → Nat) (accounts : List AccInfo)
    (data : List Nat) (s : State) :
    (initializeOp rm accounts data s).err ≠ none →
    (initializeOp rm accounts data s).state = s := by
  unfold initializeOp initializeWrite
  dsimp only
  repeat' split
  all_goals intro h
  all_goals first
    | rfl
    | (exact absurd rfl h)

lemma withdraw_err_frame (oracle : IncoCall → Option Nat)
    (accounts : List AccInfo) (data : List Nat) (s : State) :
    (withdraw oracle accounts data s).err ≠ none →
    (withdraw oracle accounts data s).state = s := by
  unfold withdraw
  dsimp only
  repeat' split
  all_goals intro h
  all_goals first
    | rfl
    | (exact absurd rfl h)

lemma executeSettle_err_frame (oracle : IncoCall → Option Nat)
    (vault userDep execution : AccInfo) (args : IntentArgs)
    (ud0 : UserDeposit) (encAmt : Nat) (acc : List IncoCall) (s : State) :
    (executeSettle oracle vault userDep execution args ud0 encAmt acc s).err ≠ none →
    (executeSettle oracle vault userDep execution args ud0 encAmt acc s).state = s := by
  unfold executeSettle
  dsimp only
  repeat' split
  all_goals intro h
  all_goals first
    | rfl
    | (exact absurd rfl h)

lemma executeChecks_err_frame (oracle : IncoCall → Option Nat)
    (vault userDep execution : AccInfo) (args : IntentArgs)
    (ud0 : UserDeposit) (s : State) :
    (executeChecks oracle vault userDep execution args ud0 s).err ≠ none →
    (executeChecks oracle vault userDep execution args ud0 s).state = s := by
  unfold executeChecks
  dsimp only
  repeat' split
  all_goals intro h
  all_goals first
    | rfl
    | (exact absurd rfl h)
    | (exact executeSettle_err_frame _ _ _ _ _ _ _ _ _ h)

lemma executeWithIntent_err_frame (oracle : IncoCall → Option Nat)
    (accounts : List AccInfo) (data : List Nat) (s : State) :
    (executeWithIntent oracle accounts data s).err ≠ none →
    (executeWithIntent oracle accounts data s).state = s := by
  unfold executeWithIntent
  repeat' split
  all_goals intro h
  all_goals first
    | rfl
    | (exact absurd rfl h)
    | (exact executeChecks_err_frame _ _ _ _ _ _ _ h)

/-! ## Claim C1: atomicity of failed operations -/

/-- C1 counterexample: a Deposit that fails (participant-record account of
invalid size) after the user-to-vault native transfer was already
performed.  The operation returns an error, yet the persisted native
balances differ from their values before the call, and the enforcement
claimed by the spec (every ledger call before any persist, persist last)
does not hold of this code path. -/
theorem deposit_mutates_before_error_cex :
    (deposit (fun _ => 1) (fun _ => none) depositAccounts
        [5,0,0,0,0,0,0,0, 0,0,0,0, 0] cexDepositState).err =
      some .invalidAccountData
    ∧ (cexDepositState Addr.vaultPda).lamports = 10
    ∧ ((deposit (fun _ => 1) (fun _ => none) depositAccounts
        [5,0,0,0,0,0,0,0, 0,0,0,0, 0] cexDepositState).state
          Addr.vaultPda).lamports = 15
    ∧ (cexDepositState (Addr.key kUser)).lamports = 100
    ∧ ((deposit (fun _ => 1) (fun _ => none) depositAccounts
        [5,0,0,0,0,0,0,0, 0,0,0,0, 0] cexDepositState).state
          (Addr.key kUser)).lamports = 95 := by
  decide

/-- C1 (amended): Initialize, Withdraw and DelegatedExecute leave every
persisted account exactly as it was whenever they return an error.  (As
the counterexample shows, Deposit does not have this program-level
property: it performs the native transfer and lazy account creations
before its remaining validation and coprocessor calls; and in Withdraw and
DelegatedExecute the record is persisted before the native balance
movement rather than persisting happening last.) -/
theorem failed_ops_leave_state_unchanged (rm : Nat → Nat)
    (oracle : IncoCall → Option Nat) (accounts : List AccInfo)
    (data : List Nat) (s : State) :
    ((initializeOp rm accounts data s).err ≠ none →
      (initializeOp rm accounts data s).state = s)
    ∧ ((withdraw oracle accounts data s).err ≠ none →
      (withdraw oracle accounts data s).state = s)
    ∧ ((executeWithIntent oracle accounts data s).err ≠ none →
      (executeWithIntent oracle accounts data s).state = s) :=
  ⟨initializeOp_err_frame rm accounts data s,
   withdraw_err_frame oracle accounts data s,
   executeWithIntent_err_frame oracle accounts data s⟩

/-- Witness for the amended C1: concrete failing calls of all three
operations leave the state unchanged. -/
theorem failed_ops_leave_state_unchanged_witness :
    ((initializeOp (fun _ => 1) [] [] emptyState).err ≠ none
      ∧ (initializeOp (fun _ => 1) [] [] emptyState).state = emptyState)
    ∧ ((withdraw (fun _ => none) [] [] emptyState).err ≠ none
      ∧ (withdraw (fun _ => none) [] [] emptyState).state = emptyState)
    ∧ ((executeWithIntent (fun _ => none) [] [] emptyState).err ≠ none
      ∧ (executeWithIntent (fun _ => none) [] [] emptyState).state = emptyState) :=
  ⟨⟨by decide,
    (failed_ops_leave_state_unchanged (fun _ => 1) (fun _ => none) [] []
      emptyState).1 (by decide)⟩,
   ⟨by decide,
    (failed_ops_leave_state_unchanged (fun _ => 1) (fun _ => none) [] []
      emptyState).2.1 (by decide)⟩,
   ⟨by decide,
    (failed_ops_leave_state_unchanged (fun _ => 1) (fun _ => none) [] []
      emptyState).2.2 (by decide)⟩⟩

/-! ## Claim C2: re-initialization authority -/

/-- C2 counterexample: the configuration record exists with controlling
authority `kA`, yet an Initialize signed by the different principal `kB`
succeeds and overwrites the record (installing `kB` as the new authority
and `kE2` as the new receiver).  The code never reads the existing record,
so no authority comparison takes place. -/
theorem reinit_by_other_principal_succeeds_cex :
    kB ≠ kA
    ∧ Executor.unpack ((cexInitState Addr.executorPda).data) =
        .ok ⟨kE, kA, true⟩
    ∧ (initializeOp (fun _ => 1)
        [⟨Addr.executorPda, false⟩, ⟨Addr.key kB, true⟩, ⟨Addr.key kA, false⟩]
        kE2.val cexInitState).err = none
    ∧ Executor.unpack
        (((initializeOp (fun _ => 1)
          [⟨Addr.executorPda, false⟩, ⟨Addr.key kB, true⟩, ⟨Addr.key kA, false⟩]
          kE2.val cexInitState).state Addr.executorPda).data) =
        .ok ⟨kE2, kB, true⟩ := by
  decide

/-- C2 (amended): once the configuration record exists, a subsequent
Initialize overwrites it whenever its authority account signs, regardless
of who the stored `controlling_authority` is (the stored record is never
read); the overwritten record names the new signer as authority.  An
Initialize whose authority does not sign fails with a missing-signature
error and changes nothing. -/
theorem reinit_any_signer_overwrites (rm : Nat → Nat)
    (executorA authority sysP : AccInfo) (rest : List AccInfo)
    (data : List Nat) (s : State)
    (hx : executorA.key = Addr.executorPda)
    (h32 : ¬ data.length < 32) :
    (authority.isSigner = false →
      initializeOp rm (executorA :: authority :: sysP :: rest) data s =
        ⟨some .missingRequiredSignature, s, []⟩)
    ∧ (authority.isSigner = true → (s executorA.key).lamports ≠ 0 →
      initializeOp rm (executorA :: authority :: sysP :: rest) data s =
        ⟨none,
          setAcc s executorA.key
            { s executorA.key with
              data := Executor.packIntoSlice
                ⟨⟨data.take 32, by simp [List.length_take]; omega⟩,
                 authority.key.toPubkey, true⟩ ((s executorA.key).data) },
          []⟩) := by
  constructor
  · intro hsig
    unfold initializeOp
    simp [hx, hsig]
  · intro hsig hlam
    rw [hx] at hlam
    unfold initializeOp initializeWrite
    simp [hx, hsig, h32, hlam]

/-- Witness for the amended C2: the concrete overwrite by the non-matching
signer `kB`. -/
theorem reinit_any_signer_overwrites_witness :
    initializeOp (fun _ => 1)
        [⟨Addr.executorPda, false⟩, ⟨Addr.key kB, true⟩, ⟨Addr.key kA, false⟩]
        kE2.val cexInitState =
      ⟨none,
        setAcc cexInitState Addr.executorPda
          { cexInitState Addr.executorPda with
            data := Executor.packIntoSlice
              ⟨⟨kE2.val.take 32, by decide⟩, (Addr.key kB).toPubkey, true⟩
              ((cexInitState Addr.executorPda).data) },
        []⟩ :=
  (reinit_any_signer_overwrites (fun _ => 1) ⟨Addr.executorPda, false⟩
    ⟨Addr.key kB, true⟩ ⟨Addr.key kA, false⟩ [] kE2.val cexInitState rfl
    (by decide)).2 rfl (by decide)

/-! ## Claim C3: when the encrypted balance is reset to an encryption of
zero -/

/-- C3 counterexample: a pre-existing participant record (the account has
lamports and a full 48-byte record, so nothing is created on this call)
stores balance handle 7, but because the stored owner key begins with byte
0 the deposit treats the record as uninitialized: it issues a fresh
encryption of zero (handle 2) and uses it — not the stored handle 7 — as
the left operand of the homomorphic add. -/
theorem deposit_discards_stored_handle_cex :
    UserDeposit.unpackFromSlice ((cexHandleState (Addr.userDepositPda kUser)).data) =
      some ⟨ownerZ, 7⟩
    ∧ (cexHandleState (Addr.userDepositPda kUser)).lamports ≠ 0
    ∧ (deposit (fun _ => 1) orcHandle depositAccounts
        [5,0,0,0,0,0,0,0, 1,0,0,0, 9, 0] cexHandleState).err = none
    ∧ (deposit (fun _ => 1) orcHandle depositAccounts
        [5,0,0,0,0,0,0,0, 1,0,0,0, 9, 0] cexHandleState).calls =
      [.asEuint128 0, .newEuint128 [9] 0, .eAdd 2 3]
    ∧ UserDeposit.unpackFromSlice
        (((deposit (fun _ => 1) orcHandle depositAccounts
          [5,0,0,0,0,0,0,0, 1,0,0,0, 9, 0] cexHandleState).state
            (Addr.userDepositPda kUser)).data) = some ⟨kUser, 5⟩ := by
  decide

/-- C3 (amended): in Deposit's balance update, the encrypted balance is
initialized to a fresh encryption of zero exactly when the first byte of
the stored record data is zero (the record is then treated as
uninitialized and rebuilt with the caller as owner, even if it
pre-existed) or the stored balance handle equals zero; only when the first
byte is nonzero and the stored handle is nonzero is the stored handle kept
and used unchanged as the left operand of the homomorphic add.  A record
newly created on the call is zero-filled and falls under the first case. -/
theorem deposit_zero_reinit_rule (oracle : IncoCall → Option Nat)
    (user userDep : AccInfo) (ct : List Nat) (it : Nat) (s3 : State)
    (hlen : ¬ ((s3 userDep.key).data).length < UserDeposit.LEN) :
    ((((s3 userDep.key).data).getD 0 0 = 0
        ∨ (((s3 userDep.key).data).getD 0 0 ≠ 0
          ∧ ∃ u0, UserDeposit.unpack ((s3 userDep.key).data) = .ok u0
              ∧ u0.balance = 0)) →
      ∀ z ea nb, incoCall oracle (.asEuint128 0) = some z →
        incoCall oracle (.newEuint128 ct it) = some ea →
        incoCall oracle (.eAdd z ea) = some nb →
        depositFinish oracle user userDep ct it s3 =
          ⟨none,
            setAcc s3 userDep.key
              { s3 userDep.key with
                data := UserDeposit.packIntoSlice ⟨user.key.toPubkey, nb⟩
                  ((s3 userDep.key).data) },
            [.asEuint128 0, .newEuint128 ct it, .eAdd z ea]⟩)
    ∧ ((((s3 userDep.key).data).getD 0 0 ≠ 0 →
      ∀ u0, UserDeposit.unpack ((s3 userDep.key).data) = .ok u0 →
        u0.balance ≠ 0 →
        ∀ ea nb, incoCall oracle (.newEuint128 ct it) = some ea →
          incoCall oracle (.eAdd u0.balance ea) = some nb →
          depositFinish oracle user userDep ct it s3 =
            ⟨none,
              setAcc s3 userDep.key
                { s3 userDep.key with
                  data := UserDeposit.packIntoSlice ⟨u0.user, nb⟩
                    ((s3 userDep.key).data) },
              [.newEuint128 ct it, .eAdd u0.balance ea]⟩)) := by
  constructor
  · rintro hcase z ea nb hz hea hnb
    rcases hcase with h0 | ⟨h0, u0, hup, hbal⟩
    · simp only [List.getD_eq_getElem?_getD] at h0
      unfold depositFinish depositAdd
      simp [hlen, h0, hz, hea, hnb]
    · simp only [List.getD_eq_getElem?_getD] at h0
      unfold depositFinish depositAdd
      simp [hlen, h0, hup, hbal, hz, hea, hnb]
  · rintro h0 u0 hup hbal ea nb hea hnb
    simp only [List.getD_eq_getElem?_getD] at h0
    unfold depositFinish depositAdd
    simp [hlen, h0, hup, hbal, hea, hnb]

/-- Witness for the amended C3: on a record with nonzero first byte and
stored handle 7, the stored handle is kept as the left operand of the add
and no encryption of zero is issued. -/
theorem deposit_zero_reinit_rule_witness :
    depositFinish orcKeep ⟨Addr.key kUser, true⟩
        ⟨Addr.userDepositPda kUser, false⟩ [9] 0 keepHandleState =
      ⟨none,
        setAcc keepHandleState (Addr.userDepositPda kUser)
          { keepHandleState (Addr.userDepositPda kUser) with
            data := UserDeposit.packIntoSlice ⟨kUser, 9⟩
              ((keepHandleState (Addr.userDepositPda kUser)).data) },
        [.newEuint128 [9] 0, .eAdd 7 3]⟩ :=
  (deposit_zero_reinit_rule orcKeep ⟨Addr.key kUser, true⟩
    ⟨Addr.userDepositPda kUser, false⟩ [9] 0 keepHandleState (by decide)).2
    (by decide) ⟨kUser, 7⟩ (by decide) (by decide) 3 9 (by decide) (by decide)

/-! ## Claim C5: withdraw insufficient funds -/

/-- C5: in Withdraw, when the `greater_or_equal` coprocessor result decodes
to raw value zero, the operation fails with the insufficient-funds error
and mutates nothing: the returned state is exactly the input state, so the
participant record and both native balances are unchanged (and no further
coprocessor call is issued). -/
theorem withdraw_insufficient_funds_rejected (oracle : IncoCall → Option Nat)
    (vault user userDep : AccInfo) (rest : List AccInfo)
    (data : List Nat) (s : State) (ud0 : UserDeposit) (encAmt : Nat)
    (hsig : user.isSigner = true)
    (hv : vault.key = Addr.vaultPda)
    (hud : userDep.key = Addr.userDepositPda user.key.toPubkey)
    (hlen : ¬ data.length < 8)
    (hup : UserDeposit.unpack ((s userDep.key).data) = .ok ud0)
    (hown : ud0.user = user.key.toPubkey)
    (henc : incoCall oracle (.asEuint128 (fromLE (data.take 8))) = some encAmt)
    (hge : incoCall oracle (.eGe ud0.balance encAmt) = some 0) :
    withdraw oracle (vault :: user :: userDep :: rest) data s =
      ⟨some .insufficientFunds, s,
        [.asEuint128 (fromLE (data.take 8)), .eGe ud0.balance encAmt]⟩ := by
  rw [hud] at hup
  unfold withdraw
  simp [hsig, hv, hud, hlen, hup, hown, henc, hge]

/-- Witness for C5: a concrete withdraw of 4 against stored handle 7 whose
solvency comparison decodes 0 is rejected with nothing mutated. -/
theorem withdraw_insufficient_funds_rejected_witness :
    withdraw orcGeFalse withdrawAccounts [4,0,0,0,0,0,0,0] keepHandleState =
      ⟨some .insufficientFunds, keepHandleState,
        [.asEuint128 4, .eGe 7 11]⟩ :=
  withdraw_insufficient_funds_rejected orcGeFalse
    ⟨Addr.vaultPda, false⟩ ⟨Addr.key kUser, true⟩
    ⟨Addr.userDepositPda kUser, false⟩ [] [4,0,0,0,0,0,0,0] keepHandleState
    ⟨kUser, 7⟩ 11 rfl rfl (by decide) (by decide) (by decide) (by decide)
    (by decide) (by decide)

/-! ## Claim C4: the delegated-execute equality gate -/

lemma delegated_eq_false_rejected (oracle : IncoCall → Option Nat)
    (executorA vault userDep user execution sysP incoP : AccInfo)
    (rest : List AccInfo) (data : List Nat) (s : State)
    (ex : Executor) (args : IntentArgs) (ud0 : UserDeposit) (ea pa : Nat)
    (hx : executorA.key = Addr.executorPda)
    (hexu : Executor.unpack ((s executorA.key).data) = .ok ex)
    (hmatch : ex.execution_account = execution.key.toPubkey)
    (hesig : execution.isSigner = true)
    (hv : vault.key = Addr.vaultPda)
    (hud : userDep.key = Addr.userDepositPda user.key.toPubkey)
    (hparse : parseIntent data = .ok args)
    (hsigne : args.signature ≠ [])
    (hup : UserDeposit.unpack ((s userDep.key).data) = .ok ud0)
    (hown : ud0.user = user.key.toPubkey)
    (hea : incoCall oracle (.newEuint128 args.ciphertext args.inputType) = some ea)
    (hpa : incoCall oracle (.asEuint128 args.amount) = some pa)
    (heq : incoCall oracle (.eEq ea pa) = some 0) :
    executeWithIntent oracle
        (executorA :: vault :: userDep :: user :: execution :: sysP :: incoP :: rest)
        data s =
      ⟨some .invalidArgument, s,
        [.newEuint128 args.ciphertext args.inputType,
         .asEuint128 args.amount, .eEq ea pa]⟩ := by
  rw [hx] at hexu
  rw [hud] at hup
  unfold executeWithIntent executeChecks
  simp [hx, hexu, hmatch, hesig, hv, hud, hparse, hsigne, hup, hown, hea, hpa, heq]

lemma executeChecks_success_requires (oracle : IncoCall → Option Nat)
    (vault userDep execution : AccInfo) (args : IntentArgs)
    (ud0 : UserDeposit) (s : State) :
    (executeChecks oracle vault userDep execution args ud0 s).err = none →
    ∃ ea pa m g,
      incoCall oracle (.newEuint128 args.ciphertext args.inputType) = some ea
      ∧ incoCall oracle (.asEuint128 args.amount) = some pa
      ∧ incoCall oracle (.eEq ea pa) = some m ∧ m ≠ 0
      ∧ args.amount ≠ 0
      ∧ incoCall oracle (.eGe ud0.balance ea) = some g ∧ g ≠ 0 := by
  unfold executeChecks
  dsimp only
  intro h
  repeat' split at h
  all_goals try (exact absurd h (by simp))
  rename_i x3 ea h1 x2 pa h2 x1 m h3 hm x0 g h4 hcond
  push_neg at hcond
  exact ⟨ea, pa, m, g, h1, h2, h3, hm, hcond.1, h4, hcond.2⟩

lemma delegated_success_requires (oracle : IncoCall → Option Nat)
    (executorA vault userDep user execution sysP incoP : AccInfo)
    (rest : List AccInfo) (data : List Nat) (s : State) :
    (executeWithIntent oracle
        (executorA :: vault :: userDep :: user :: execution :: sysP :: incoP :: rest)
        data s).err = none →
    ∃ args ud0 ea pa m g,
      parseIntent data = .ok args
      ∧ UserDeposit.unpack ((s userDep.key).data) = .ok ud0
      ∧ incoCall oracle (.newEuint128 args.ciphertext args.inputType) = some ea
      ∧ incoCall oracle (.asEuint128 args.amount) = some pa
      ∧ incoCall oracle (.eEq ea pa) = some m ∧ m ≠ 0
      ∧ args.amount ≠ 0
      ∧ incoCall oracle (.eGe ud0.balance ea) = some g ∧ g ≠ 0 := by
  unfold executeWithIntent
  dsimp only
  intro h
  repeat' split at h
  all_goals try (exact absurd h (by simp))
  obtain ⟨ea, pa, m, g, h1, h2, h3, h4, h5, h6, h7⟩ :=
    executeChecks_success_requires _ _ _ _ _ _ _ h
  exact ⟨_, _, _, _, _, _, by assumption, by assumption, h1, h2, h3, h4, h5, h6, h7⟩

/-- C4: in DelegatedExecute, when the `equal` comparison of the handle
built from the supplied ciphertext against the encryption of the plaintext
amount decodes to zero, the operation fails (invalid-argument error) with
the state returned exactly as given — participant record and vault balance
unchanged, no further coprocessor call; and success requires the equality
to have decoded nonzero, the amount to be nonzero and the solvency
comparison to have decoded nonzero, all established before any mutation
(the error case returns the input state unchanged). -/
theorem delegated_equality_gate :
    (∀ (oracle : IncoCall → Option Nat)
        (executorA vault userDep user execution sysP incoP : AccInfo)
        (rest : List AccInfo) (data : List Nat) (s : State)
        (ex : Executor) (args : IntentArgs) (ud0 : UserDeposit) (ea pa : Nat),
      executorA.key = Addr.executorPda →
      Executor.unpack ((s executorA.key).data) = .ok ex →
      ex.execution_account = execution.key.toPubkey →
      execution.isSigner = true →
      vault.key = Addr.vaultPda →
      userDep.key = Addr.userDepositPda user.key.toPubkey →
      parseIntent data = .ok args →
      args.signature ≠ [] →
      UserDeposit.unpack ((s userDep.key).data) = .ok ud0 →
      ud0.user = user.key.toPubkey →
      incoCall oracle (.newEuint128 args.ciphertext args.inputType) = some ea →
      incoCall oracle (.asEuint128 args.amount) = some pa →
      incoCall oracle (.eEq ea pa) = some 0 →
      executeWithIntent oracle
          (executorA :: vault :: userDep :: user :: execution :: sysP :: incoP :: rest)
          data s =
        ⟨some .invalidArgument, s,
          [.newEuint128 args.ciphertext args.inputType,
           .asEuint128 args.amount, .eEq ea pa]⟩)
    ∧ (∀ (oracle : IncoCall → Option Nat)
        (executorA vault userDep user execution sysP incoP : AccInfo)
        (rest : List AccInfo) (data : List Nat) (s : State),
      (executeWithIntent oracle
          (executorA :: vault :: userDep :: user :: execution :: sysP :: incoP :: rest)
          data s).err = none →
      ∃ args ud0 ea pa m g,
        parseIntent data = .ok args
        ∧ UserDeposit.unpack ((s userDep.key).data) = .ok ud0
        ∧ incoCall oracle (.newEuint128 args.ciphertext args.inputType) = some ea
        ∧ incoCall oracle (.asEuint128 args.amount) = some pa
        ∧ incoCall oracle (.eEq ea pa) = some m ∧ m ≠ 0
        ∧ args.amount ≠ 0
        ∧ incoCall oracle (.eGe ud0.balance ea) = some g ∧ g ≠ 0) :=
  ⟨fun oracle executorA vault userDep user execution sysP incoP rest data s
      ex args ud0 ea pa hx hexu hmatch hesig hv hud hparse hsigne hup hown
      hea hpa heq =>
    delegated_eq_false_rejected oracle executorA vault userDep user execution
      sysP incoP rest data s ex args ud0 ea pa hx hexu hmatch hesig hv hud
      hparse hsigne hup hown hea hpa heq,
   fun oracle executorA vault userDep user execution sysP incoP rest data s h =>
    delegated_success_requires oracle executorA vault userDep user execution
      sysP incoP rest data s h⟩

/-- Witness for C4: a concrete delegated execute whose ciphertext handle 3
fails the equality against the encrypted plaintext amount (handle 11) is
rejected with the state unchanged. -/
theorem delegated_equality_gate_witness :
    executeWithIntent orcEqFalse execAccounts execData execState =
      ⟨some .invalidArgument, execState,
        [.newEuint128 [9] 0, .asEuint128 4, .eEq 3 11]⟩ :=
  delegated_equality_gate.1 orcEqFalse
    ⟨Addr.executorPda, false⟩ ⟨Addr.vaultPda, false⟩
    ⟨Addr.userDepositPda kUser, false⟩ ⟨Addr.key kUser, false⟩
    ⟨Addr.key kE, true⟩ ⟨Addr.key kA, false⟩ ⟨Addr.key kA, false⟩ []
    execData execState ⟨kE, kA, true⟩
    ⟨List.replicate 32 0, [1], 4, [9], 0⟩ ⟨kUser, 7⟩ 3 11
    rfl (by decide) (by decide) rfl rfl (by decide) (by decide) (by decide)
    (by decide) (by decide) (by decide) (by decide) (by decide)

/-! ## Claim C7: truncated intent payloads -/

/-- C7: any DelegatedExecute payload shorter than the 36-byte fixed prefix,
or whose declared signature length or ciphertext length makes the
corresponding field extend past the end of the buffer, is rejected by the
parser with the structural-decode error; and whenever the parse fails the
operation returns that structural error immediately with zero coprocessor
calls and the state unchanged — before any semantic check on the parsed
values and before any mutation. -/
theorem intent_truncation_rejected :
    (∀ data : List Nat,
      (data.length < 36
        ∨ data.length < 36 + fromLE ((data.drop 32).take 4) + 13
        ∨ data.length < 36 + fromLE ((data.drop 32).take 4) + 12
            + fromLE ((data.drop (36 + fromLE ((data.drop 32).take 4) + 8)).take 4)
            + 1) →
      parseIntent data = .error .invalidInstructionData)
    ∧ (∀ (oracle : IncoCall → Option Nat)
        (executorA vault userDep user execution sysP incoP : AccInfo)
        (rest : List AccInfo) (data : List Nat) (s : State)
        (ex : Executor) (e : PErr),
      executorA.key = Addr.executorPda →
      Executor.unpack ((s executorA.key).data) = .ok ex →
      ex.execution_account = execution.key.toPubkey →
      execution.isSigner = true →
      vault.key = Addr.vaultPda →
      userDep.key = Addr.userDepositPda user.key.toPubkey →
      parseIntent data = .error e →
      executeWithIntent oracle
          (executorA :: vault :: userDep :: user :: execution :: sysP :: incoP :: rest)
          data s = ⟨some e, s, []⟩) := by
  constructor
  · intro data h
    unfold parseIntent
    dsimp only
    rcases h with h | h | h
    · rw [if_pos h]
    · by_cases h1 : data.length < 36
      · rw [if_pos h1]
      · rw [if_neg h1, if_pos (by omega)]
    · by_cases h1 : data.length < 36
      · rw [if_pos h1]
      · rw [if_neg h1]
        by_cases h2 : data.length <
            36 + fromLE ((data.drop 32).take 4) + 8 + 4 + 1
        · rw [if_pos h2]
        · rw [if_neg h2, if_pos (by omega)]
  · intro oracle executorA vault userDep user execution sysP incoP rest data s
      ex e hx hexu hmatch hesig hv hud hparse
    rw [hx] at hexu
    unfold executeWithIntent
    simp [hx, hexu, hmatch, hesig, hv, hud, hparse]

/-- Witness for C7: a 35-byte payload (one short of the fixed prefix) is
rejected structurally, with zero coprocessor calls and the state
unchanged. -/
theorem intent_truncation_rejected_witness :
    parseIntent (List.replicate 35 0) = .error .invalidInstructionData
    ∧ executeWithIntent (fun _ => none) execAccounts (List.replicate 35 0)
        execState =
      ⟨some .invalidInstructionData, execState, []⟩ :=
  ⟨intent_truncation_rejected.1 (List.replicate 35 0) (by decide),
   intent_truncation_rejected.2 (fun _ => none)
    ⟨Addr.executorPda, false⟩ ⟨Addr.vaultPda, false⟩
    ⟨Addr.userDepositPda kUser, false⟩ ⟨Addr.key kUser, false⟩
    ⟨Addr.key kE, true⟩ ⟨Addr.key kA, false⟩ ⟨Addr.key kA, false⟩ []
    (List.replicate 35 0) execState ⟨kE, kA, true⟩ .invalidInstructionData
    rfl (by decide) (by decide) rfl rfl (by decide) (by decide)⟩

/-! ## Claim C8: entry dispatch -/

/-- C8: the entry dispatcher inspects the first byte of the instruction
payload, routing 0 to Initialize, 1 to Deposit, 2 to Withdraw and 3 to
DelegatedExecute with the remaining bytes as the operation payload; for an
empty payload or any first byte outside {0,1,2,3} it returns a structural
error and leaves the state unchanged (and issues no coprocessor call). -/
theorem dispatch_routes_by_first_byte (rentMin : Nat → Nat)
    (oracle : IncoCall → Option Nat) (accounts : List AccInfo) (s : State) :
    processInstruction rentMin oracle accounts [] s =
      ⟨some .invalidInstructionData, s, []⟩
    ∧ (∀ rest, processInstruction rentMin oracle accounts (0 :: rest) s =
        initializeOp rentMin accounts rest s)
    ∧ (∀ rest, processInstruction rentMin oracle accounts (1 :: rest) s =
        deposit rentMin oracle accounts rest s)
    ∧ (∀ rest, processInstruction rentMin oracle accounts (2 :: rest) s =
        withdraw oracle accounts rest s)
    ∧ (∀ rest, processInstruction rentMin oracle accounts (3 :: rest) s =
        executeWithIntent oracle accounts rest s)
    ∧ (∀ tag rest, tag ≠ 0 → tag ≠ 1 → tag ≠ 2 → tag ≠ 3 →
        processInstruction rentMin oracle accounts (tag :: rest) s =
          ⟨some .invalidInstructionData, s, []⟩) := by
  refine ⟨rfl, fun rest => rfl, fun rest => rfl, fun rest => rfl, fun rest => rfl,
    fun tag rest h0 h1 h2 h3 => ?_⟩
  simp [processInstruction, h0, h1, h2, h3]

/-- Witness for C8: a concrete unrecognized tag is rejected structurally. -/
theorem dispatch_routes_by_first_byte_witness :
    processInstruction (fun _ => 0) (fun _ => none) []
        [9] (fun _ => ⟨0, []⟩) =
      ⟨some .invalidInstructionData, (fun _ => ⟨0, []⟩ : State), []⟩ :=
  (dispatch_routes_by_first_byte (fun _ => 0) (fun _ => none) []
    (fun _ => ⟨0, []⟩)).2.2.2.2.2 9 [] (by decide) (by decide) (by decide)
    (by decide)

/-! ## Claim C9: record layouts and serialization round-trip -/

/-- C9: the delegate-configuration record serializes to
`receiving_account(32) | controlling_authority(32) | initialized_flag(1)`
(65 bytes) and the participant record to `owner(32) | encrypted_balance(16,
u128 LE)` (48 bytes); on every buffer at least that long,
`unpack_from_slice` after `pack_into_slice` returns the original record. -/
theorem record_codecs_roundtrip :
    (∀ (r : Executor) (dst : List Nat), Executor.LEN ≤ dst.length →
      Executor.packIntoSlice r dst =
        r.execution_account.val ++ r.authority.val ++
          [if r.is_initialized then 1 else 0] ++ dst.drop 65
      ∧ Executor.unpackFromSlice (Executor.packIntoSlice r dst) = some r)
    ∧ (∀ (r : UserDeposit) (dst : List Nat), UserDeposit.LEN ≤ dst.length →
        r.balance < 2 ^ 128 →
      UserDeposit.packIntoSlice r dst =
        r.user.val ++ leBytes 16 r.balance ++ dst.drop 48
      ∧ UserDeposit.unpackFromSlice (UserDeposit.packIntoSlice r dst) = some r) := by
  constructor
  · intro r dst hd
    refine ⟨?_, executor_pack_unpack r dst hd⟩
    unfold Executor.packIntoSlice
    rw [if_neg (by unfold Executor.LEN at hd ⊢; omega)]
  · intro r dst hd hb
    refine ⟨?_, userDeposit_pack_unpack r dst hd hb⟩
    unfold UserDeposit.packIntoSlice
    rw [if_neg (by unfold UserDeposit.LEN at hd ⊢; omega)]

/-- Witness for C9: a concrete round-trip through both codecs. -/
theorem record_codecs_roundtrip_witness :
    Executor.unpackFromSlice
        (Executor.packIntoSlice ⟨zeroKey, zeroKey, true⟩ (List.replicate 65 7)) =
      some ⟨zeroKey, zeroKey, true⟩
    ∧ UserDeposit.unpackFromSlice
        (UserDeposit.packIntoSlice ⟨zeroKey, 5⟩ (List.replicate 48 7)) =
      some ⟨zeroKey, 5⟩ :=
  ⟨(record_codecs_roundtrip.1 ⟨zeroKey, zeroKey, true⟩ (List.replicate 65 7)
      (by decide)).2,
   (record_codecs_roundtrip.2 ⟨zeroKey, 5⟩ (List.replicate 48 7)
      (by decide) (by decide)).2⟩

/-! ## Claim C10: pack on a short buffer is a silent no-op -/

/-- C10: for both record codecs, `pack_into_slice` called with a destination
buffer shorter than the record's fixed length returns without writing any
byte and without signaling an error: the buffer is left entirely unchanged. -/
theorem pack_short_buffer_noop :
    (∀ (r : Executor) (dst : List Nat), dst.length < Executor.LEN →
      Executor.packIntoSlice r dst = dst)
    ∧ (∀ (r : UserDeposit) (dst : List Nat), dst.length < UserDeposit.LEN →
      UserDeposit.packIntoSlice r dst = dst) := by
  constructor
  · intro r dst h
    unfold Executor.packIntoSlice
    rw [if_pos h]
  · intro r dst h
    unfold UserDeposit.packIntoSlice
    rw [if_pos h]

/-- Witness for C10: packing into a 10-byte buffer changes nothing. -/
theorem pack_short_buffer_noop_witness :
    Executor.packIntoSlice ⟨zeroKey, zeroKey, true⟩ (List.replicate 10 3) =
      List.replicate 10 3
    ∧ UserDeposit.packIntoSlice ⟨zeroKey, 5⟩ (List.replicate 10 3) =
      List.replicate 10 3 :=
  ⟨pack_short_buffer_noop.1 ⟨zeroKey, zeroKey, true⟩ (List.replicate 10 3)
      (by decide),
   pack_short_buffer_noop.2 ⟨zeroKey, 5⟩ (List.replicate 10 3) (by decide)⟩


/-! ## Claim C6: owner immutability and address derivation -/

lemma setAcc_apply (s : State) (a : Addr) (v : Account) (b : Addr) :
    setAcc s a v b = if b = a then v else s b := rfl

lemma setAcc_lamports_data (s : State) (a : Addr) (lp : Nat) (b : Addr) :
    (setAcc s a { s a with lamports := lp } b).data = (s b).data := by
  unfold setAcc
  by_cases h : b = a
  · subst h; simp
  · simp [h]

lemma setAcc_data_apply (s : State) (a : Addr) (d : List Nat) (b : Addr) :
    (setAcc s a { s a with data := d } b).data =
      if b = a then d else (s b).data := by
  unfold setAcc
  by_cases h : b = a
  · subst h; simp
  · simp [h]

lemma sysTransfer_data (src dst : Addr) (amount : Nat) (s s2 : State)
    (h : sysTransfer src dst amount s = some s2) (b : Addr) :
    (s2 b).data = (s b).data := by
  unfold sysTransfer at h
  split at h
  · exact absurd h (by simp)
  · rw [Option.some_inj] at h
    subst h
    rw [setAcc_lamports_data]
    rw [setAcc_lamports_data]

lemma createAccount_data (payer newAcc : Addr) (lam size : Nat) (s s2 : State)
    (h : createAccount payer newAcc lam size s = some s2) (b : Addr) :
    (s2 b).data = (if b = newAcc then List.replicate size 0 else (s b).data)
    ∧ (s newAcc).data = [] := by
  unfold createAccount at h
  split at h
  · exact absurd h (by simp)
  · rw [Option.some_inj] at h
    subst h
    rename_i hc
    push_neg at hc
    refine ⟨?_, hc.2.1⟩
    by_cases hb : b = newAcc
    · subst hb; simp [setAcc]
    · rw [if_neg hb, setAcc_apply, if_neg hb, setAcc_lamports_data]

lemma pack_take32 (r : UserDeposit) (d : List Nat)
    (h : ¬ d.length < UserDeposit.LEN) :
    (UserDeposit.packIntoSlice r d).take 32 = r.user.val := by
  unfold UserDeposit.packIntoSlice
  rw [if_neg h]
  rw [List.append_assoc, List.take_append_of_le_length (by rw [r.user.property]),
    List.take_of_length_le (by rw [r.user.property])]

lemma pack_ne_nil (r : UserDeposit) (d : List Nat)
    (h : ¬ d.length < UserDeposit.LEN) :
    UserDeposit.packIntoSlice r d ≠ [] := by
  unfold UserDeposit.packIntoSlice
  rw [if_neg h]
  intro hq
  have := congrArg List.length hq
  simp [r.user.property] at this

lemma unpack_user (d : List Nat) (u0 : UserDeposit)
    (h : UserDeposit.unpack d = .ok u0) :
    u0.user.val = d.take 32 ∧ d.length = UserDeposit.LEN := by
  unfold UserDeposit.unpack at h
  split at h
  · exact absurd h (by simp)
  · rename_i hlen
    push_neg at hlen
    unfold UserDeposit.unpackFromSlice at h
    rw [dif_neg (by omega)] at h
    simp only at h
    split at h
    · rename_i hinit
      rw [Except.ok.injEq] at h
      subst h
      exact ⟨rfl, hlen⟩
    · exact absurd h (by simp)

lemma withdraw_ud (oracle : IncoCall → Option Nat) (accounts : List AccInfo)
    (data : List Nat) (s : State) (u : Pubkey) :
    udOk ((s (Addr.userDepositPda u)).data)
      (((withdraw oracle accounts data s).state (Addr.userDepositPda u)).data)
      u := by
  unfold withdraw
  dsimp only
  repeat' split
  all_goals try (exact Or.inl rfl)
  rename_i acc0 vault user userDep tl hsig hv hudk hlen xE ud0 hup hown
    x1 encAmt henc x2 suff hge hsuff x3 nb hsub
  push_neg at hudk hown
  rw [setAcc_lamports_data, setAcc_lamports_data, setAcc_data_apply]
  by_cases hq : Addr.userDepositPda u = userDep.key
  · rw [if_pos hq]
    obtain ⟨huv, hulen⟩ := unpack_user _ _ hup
    have hu : u = user.key.toPubkey := by
      rw [hudk] at hq
      exact (Addr.userDepositPda.injEq u user.key.toPubkey).mp hq
    refine Or.inr (Or.inr (Or.inl ⟨pack_ne_nil _ _ (by omega), ?_⟩))
    rw [pack_take32 _ _ (by omega), hown, hu]
  · rw [if_neg hq]
    exact Or.inl rfl

lemma executeSettle_ud (oracle : IncoCall → Option Nat)
    (vault userDep execution : AccInfo) (args : IntentArgs)
    (ud0 : UserDeposit) (encAmt : Nat) (acc : List IncoCall) (s : State)
    (u : Pubkey)
    (hkey : Addr.userDepositPda u = userDep.key → ud0.user = u)
    (hlen : ¬ ((s userDep.key).data).length < UserDeposit.LEN) :
    udOk ((s (Addr.userDepositPda u)).data)
      (((executeSettle oracle vault userDep execution args ud0 encAmt acc s).state
        (Addr.userDepositPda u)).data) u := by
  unfold executeSettle
  dsimp only
  repeat' split
  all_goals try (exact Or.inl rfl)
  rw [setAcc_lamports_data, setAcc_lamports_data, setAcc_data_apply]
  by_cases hq : Addr.userDepositPda u = userDep.key
  · rw [if_pos hq]
    refine Or.inr (Or.inr (Or.inl ⟨pack_ne_nil _ _ hlen, ?_⟩))
    rw [pack_take32 _ _ hlen, hkey hq]
  · rw [if_neg hq]
    exact Or.inl rfl

lemma executeChecks_ud (oracle : IncoCall → Option Nat)
    (vault userDep execution : AccInfo) (args : IntentArgs)
    (ud0 : UserDeposit) (s : State) (u : Pubkey)
    (hkey : Addr.userDepositPda u = userDep.key → ud0.user = u)
    (hlen : ¬ ((s userDep.key).data).length < UserDeposit.LEN) :
    udOk ((s (Addr.userDepositPda u)).data)
      (((executeChecks oracle vault userDep execution args ud0 s).state
        (Addr.userDepositPda u)).data) u := by
  unfold executeChecks
  dsimp only
  repeat' split
  all_goals try (exact Or.inl rfl)
  all_goals exact executeSettle_ud _ _ _ _ _ _ _ _ _ _ hkey hlen

lemma executeWithIntent_ud (oracle : IncoCall → Option Nat)
    (accounts : List AccInfo) (data : List Nat) (s : State) (u : Pubkey) :
    udOk ((s (Addr.userDepositPda u)).data)
      (((executeWithIntent oracle accounts data s).state
        (Addr.userDepositPda u)).data) u := by
  unfold executeWithIntent
  repeat' split
  all_goals try (exact Or.inl rfl)
  rename_i acc0 executorA vault userDep user execution sysP incoP tl hx xX
    ex hexu hmatch hesig hv hudk xP args hparse hsigne xU ud0 hup hown
  push_neg at hudk hown
  obtain ⟨huv, hulen⟩ := unpack_user _ _ hup
  refine executeChecks_ud _ _ _ _ _ _ _ _ ?_ (by omega)
  intro hq
  rw [hudk] at hq
  rw [hown, (Addr.userDepositPda.injEq u user.key.toPubkey).mp hq]

lemma depositFinish_ud (oracle : IncoCall → Option Nat)
    (user userDep : AccInfo) (ct : List Nat) (it : Nat) (s3 : State)
    (u : Pubkey)
    (hkey : userDep.key = Addr.userDepositPda user.key.toPubkey) :
    udOk ((s3 (Addr.userDepositPda u)).data)
      (((depositFinish oracle user userDep ct it s3).state
        (Addr.userDepositPda u)).data) u := by
  unfold depositFinish depositAdd
  dsimp only
  repeat' split
  all_goals try (exact Or.inl rfl)
  case _ =>
    rename_i hlen3 xE ud0 hif hbal x1 z hz x2 ea hea x3 nb hadd
    dsimp only
    rw [setAcc_data_apply]
    by_cases hq : Addr.userDepositPda u = userDep.key
    · rw [if_pos hq]
      have hu : u = user.key.toPubkey := by
        rw [hkey] at hq
        exact (Addr.userDepositPda.injEq _ _).mp hq
      refine Or.inr (Or.inr (Or.inl ⟨pack_ne_nil _ _ hlen3, ?_⟩))
      rw [pack_take32 _ _ hlen3, hu]
    · rw [if_neg hq]
      exact Or.inl rfl
  case _ =>
    rename_i hlen3 xE ud0 hif hbal x1 ea hea x2 nb hadd
    dsimp only
    rw [setAcc_data_apply]
    by_cases hq : Addr.userDepositPda u = userDep.key
    · rw [if_pos hq]
      by_cases h0 : ((s3 userDep.key).data).getD 0 0 = 0
      · rw [if_pos h0, Except.ok.injEq] at hif
        exfalso
        apply hbal
        rw [← hif]
      · rw [if_neg h0] at hif
        obtain ⟨huv, hulen⟩ := unpack_user _ _ hif
        refine Or.inr (Or.inr (Or.inr ⟨pack_ne_nil _ _ hlen3, ?_, ?_⟩))
        · rw [pack_take32 _ _ hlen3, huv, hq]
        · rw [hq]
          exact h0
    · rw [if_neg hq]
      exact Or.inl rfl

lemma udOk_from_created (new : List Nat) (u : Pubkey)
    (h : udOk (List.replicate 48 0) new u) : udOk [] new u := by
  unfold udOk at h ⊢
  rcases h with h | ⟨h1, h2⟩ | h | ⟨h1, h2, h3⟩
  · exact Or.inr (Or.inl ⟨rfl, h⟩)
  · exact absurd h1 (by decide)
  · exact Or.inr (Or.inr (Or.inl h))
  · exact absurd (by decide : (List.replicate 48 0).getD 0 0 = 0) h3

lemma depositTransfer_ud (rm : Nat → Nat) (oracle : IncoCall → Option Nat)
    (vault user userDep : AccInfo) (args : DepositArgs) (s : State)
    (u : Pubkey)
    (hkey : userDep.key = Addr.userDepositPda user.key.toPubkey) :
    udOk ((s (Addr.userDepositPda u)).data)
      (((depositTransfer rm oracle vault user userDep args s).state
        (Addr.userDepositPda u)).data) u := by
  unfold depositTransfer
  cases htr : sysTransfer user.key vault.key args.amount s with
  | none => simp only [htr]; exact Or.inl rfl
  | some s2 =>
    simp only [htr]
    have hs2 := sysTransfer_data _ _ _ _ _ htr
    by_cases hlam : (s2 userDep.key).lamports = 0
    · rw [if_pos hlam]
      cases hcr : createAccount user.key userDep.key (rm UserDeposit.LEN)
          UserDeposit.LEN s2 with
      | none =>
        simp only [hcr]
        exact Or.inl (hs2 _)
      | some s3 =>
        simp only [hcr]
        obtain ⟨hdat, hpre⟩ :=
          createAccount_data _ _ _ _ _ _ hcr (Addr.userDepositPda u)
        have hfin := depositFinish_ud oracle user userDep args.ciphertext
          args.inputType s3 u hkey
        by_cases hq : Addr.userDepositPda u = userDep.key
        · rw [if_pos hq] at hdat
          rw [hdat] at hfin
          have hold : (s (Addr.userDepositPda u)).data = [] := by
            rw [← hs2, hq]
            exact hpre
          rw [hold]
          exact udOk_from_created _ _ hfin
        · rw [if_neg hq] at hdat
          rw [hdat, hs2] at hfin
          exact hfin
    · rw [if_neg hlam]
      have hfin := depositFinish_ud oracle user userDep args.ciphertext
        args.inputType s2 u hkey
      rw [hs2] at hfin
      exact hfin

lemma deposit_ud (rm : Nat → Nat) (oracle : IncoCall → Option Nat)
    (accounts : List AccInfo) (data : List Nat) (s : State) (u : Pubkey) :
    udOk ((s (Addr.userDepositPda u)).data)
      (((deposit rm oracle accounts data s).state
        (Addr.userDepositPda u)).data) u := by
  unfold deposit
  repeat' split
  all_goals try (exact Or.inl rfl)
  case _ =>
    rename_i acc0 vault user userDep i0 sp ip tl hsig hv hudk xP args hparse
      hamt hlam xO s1 hcr
    push_neg at hudk hv
    obtain ⟨hdat, hpre⟩ :=
      createAccount_data _ _ _ _ _ _ hcr (Addr.userDepositPda u)
    rw [if_neg (by rw [hv]; intro hq; exact Addr.noConfusion hq)] at hdat
    have hfin := depositTransfer_ud rm oracle vault user userDep args s1 u hudk
    rw [hdat] at hfin
    exact hfin
  case _ =>
    rename_i acc0 vault user userDep i0 sp ip tl hsig hv hudk xP args hparse
      hamt hlam
    push_neg at hudk
    exact depositTransfer_ud rm oracle vault user userDep args s u hudk

lemma initializeOp_ud (rm : Nat → Nat) (accounts : List AccInfo)
    (data : List Nat) (s : State) (u : Pubkey) :
    (((initializeOp rm accounts data s).state (Addr.userDepositPda u)).data) =
      (s (Addr.userDepositPda u)).data := by
  unfold initializeOp initializeWrite
  dsimp only
  repeat' split
  all_goals try rfl
  case _ =>
    rename_i exA auth sysP tl hx hsig hdat hlam xO s1 hcr
    push_neg at hx
    obtain ⟨hdat1, hpre⟩ :=
      createAccount_data _ _ _ _ _ _ hcr (Addr.userDepositPda u)
    rw [if_neg (by rw [hx]; intro hq; exact Addr.noConfusion hq)] at hdat1
    rw [setAcc_data_apply,
      if_neg (by rw [hx]; intro hq; exact Addr.noConfusion hq)]
    exact hdat1
  case _ =>
    rename_i exA auth sysP tl hx hsig hdat hlam
    push_neg at hx
    rw [setAcc_data_apply,
      if_neg (by rw [hx]; intro hq; exact Addr.noConfusion hq)]

lemma processInstruction_ud (rm : Nat → Nat) (oracle : IncoCall → Option Nat)
    (accounts : List AccInfo) (data : List Nat) (s : State) (u : Pubkey) :
    udOk ((s (Addr.userDepositPda u)).data)
      (((processInstruction rm oracle accounts data s).state
        (Addr.userDepositPda u)).data) u := by
  unfold processInstruction
  repeat' split
  all_goals first
    | (exact Or.inl rfl)
    | (exact Or.inl (initializeOp_ud rm accounts _ s u))
    | (exact deposit_ud rm oracle accounts _ s u)
    | (exact withdraw_ud oracle accounts _ s u)
    | (exact executeWithIntent_ud oracle accounts _ s u)

lemma Inv_preserved (s s2 : State)
    (h : ∀ u : Pubkey, udOk ((s (Addr.userDepositPda u)).data)
      ((s2 (Addr.userDepositPda u)).data) u)
    (hInv : Inv s) : Inv s2 := by
  intro u
  rcases h u with hu | ⟨h1, h2⟩ | ⟨h1, h2⟩ | ⟨h1, h2, h3⟩
  · rw [hu]
    exact hInv u
  · rw [h2]
    exact Or.inr (Or.inr rfl)
  · exact Or.inr (Or.inl h2)
  · rcases hInv u with ho | ho | ho
    · rw [ho] at h3
      exact absurd (by decide : ([] : List Nat).getD 0 0 = 0) h3
    · rw [ho] at h2
      exact Or.inr (Or.inl h2)
    · rw [ho] at h3
      exact absurd (by decide : (List.replicate 48 0).getD 0 0 = 0) h3

lemma zeroKey_take_replicate : (List.replicate 48 0).take 32 = zeroKey.val := by
  decide

lemma ownerIs_eq_of_Inv (s : State) (u o : Pubkey) (hInv : Inv s)
    (how : ownerIs s u o) : o = u := by
  obtain ⟨hne, htake, hoz⟩ := how
  rcases hInv u with ho | ho | ho
  · exact absurd ho hne
  · rw [ho] at htake
    exact Subtype.ext htake.symm
  · rw [ho, zeroKey_take_replicate] at htake
    exact absurd (Subtype.ext htake.symm) hoz

lemma ownerIs_preserved (s s2 : State) (u o : Pubkey)
    (h : udOk ((s (Addr.userDepositPda u)).data)
      ((s2 (Addr.userDepositPda u)).data) u)
    (hInv : Inv s) (how : ownerIs s u o) : ownerIs s2 u o := by
  have hou : o = u := ownerIs_eq_of_Inv s u o hInv how
  obtain ⟨hne, htake, hoz⟩ := how
  rcases h with hu | ⟨h1, h2⟩ | ⟨h1, h2⟩ | ⟨h1, h2, h3⟩
  · exact ⟨by rw [hu]; exact hne, by rw [hu]; exact htake, hoz⟩
  · exact absurd h1 hne
  · exact ⟨h1, by rw [h2, hou], hoz⟩
  · exact ⟨h1, by rw [h2]; exact htake, hoz⟩

lemma runCalls_Inv (cs : List Call) (s : State) (hInv : Inv s) :
    Inv (runCalls cs s) := by
  induction cs generalizing s with
  | nil => exact hInv
  | cons c r ih =>
    exact ih _ (Inv_preserved _ _
      (fun u => processInstruction_ud c.rent c.oracle c.accounts c.data s u)
      hInv)

lemma withdraw_access_derived (oracle : IncoCall → Option Nat)
    (vault user userDep : AccInfo) (rest : List AccInfo)
    (data : List Nat) (s : State) :
    (withdraw oracle (vault :: user :: userDep :: rest) data s).err = none →
    ∃ ud0, UserDeposit.unpack ((s userDep.key).data) = .ok ud0
      ∧ userDep.key = Addr.userDepositPda ud0.user := by
  unfold withdraw
  dsimp only
  intro h
  repeat' split at h
  all_goals try (exact Option.noConfusion h)
  rename_i hsig hv hudk hlen xE ud0 hup hown x1 encAmt henc x2 suff hge
    hsuff x3 nb hsub
  push_neg at hudk hown
  exact ⟨ud0, hup, by rw [hudk, hown]⟩

lemma execute_access_derived (oracle : IncoCall → Option Nat)
    (executorA vault userDep user execution sysP incoP : AccInfo)
    (rest : List AccInfo) (data : List Nat) (s : State) :
    (executeWithIntent oracle
        (executorA :: vault :: userDep :: user :: execution :: sysP :: incoP :: rest)
        data s).err = none →
    ∃ ud0, UserDeposit.unpack ((s userDep.key).data) = .ok ud0
      ∧ userDep.key = Addr.userDepositPda ud0.user := by
  unfold executeWithIntent
  dsimp only
  intro h
  repeat' split at h
  all_goals try (exact Option.noConfusion h)
  rename_i hx xX ex hexu hmatch hesig hv hudk xP args hparse hsigne xU ud0
    hup hown
  push_neg at hudk hown
  exact ⟨ud0, hup, by rw [hudk, hown]⟩

/-- C6: starting from any state in which no participant record exists, every
sequence of operations maintains the owner-slot invariant; in any invariant
state a set owner equals the key its record address is derived from (so the
record address always matches the derivation from the stored owner); a set
owner is never changed to a different key by any further operation; and a
successful Withdraw or DelegatedExecute always acts on a record whose
address is the derivation from its stored owner. -/
theorem owner_immutable_once_set :
    (∀ s0 : State, InitCond s0 → ∀ cs : List Call, Inv (runCalls cs s0))
    ∧ (∀ (s : State) (u o : Pubkey), Inv s → ownerIs s u o → o = u)
    ∧ (∀ (s : State) (c : Call) (u o : Pubkey), Inv s → ownerIs s u o →
        ownerIs ((processInstruction c.rent c.oracle c.accounts c.data s).state)
          u o)
    ∧ (∀ (oracle : IncoCall → Option Nat) (vault user userDep : AccInfo)
        (rest : List AccInfo) (data : List Nat) (s : State),
        (withdraw oracle (vault :: user :: userDep :: rest) data s).err = none →
        ∃ ud0, UserDeposit.unpack ((s userDep.key).data) = .ok ud0
          ∧ userDep.key = Addr.userDepositPda ud0.user)
    ∧ (∀ (oracle : IncoCall → Option Nat)
        (executorA vault userDep user execution sysP incoP : AccInfo)
        (rest : List AccInfo) (data : List Nat) (s : State),
        (executeWithIntent oracle
            (executorA :: vault :: userDep :: user :: execution :: sysP :: incoP :: rest)
            data s).err = none →
        ∃ ud0, UserDeposit.unpack ((s userDep.key).data) = .ok ud0
          ∧ userDep.key = Addr.userDepositPda ud0.user) :=
  ⟨fun s0 h cs => runCalls_Inv cs s0 (fun u => Or.inl (h u)),
   fun s u o hInv how => ownerIs_eq_of_Inv s u o hInv how,
   fun s c u o hInv how =>
    ownerIs_preserved _ _ u o
      (processInstruction_ud c.rent c.oracle c.accounts c.data s u) hInv how,
   fun oracle vault user userDep rest data s h =>
    withdraw_access_derived oracle vault user userDep rest data s h,
   fun oracle executorA vault userDep user execution sysP incoP rest data s h =>
    execute_access_derived oracle executorA vault userDep user execution sysP
      incoP rest data s h⟩

/-- Witness for C6: the empty trace from the empty state keeps the
invariant, and a concrete owner already set to `kUser` survives a concrete
withdraw call unchanged. -/
theorem owner_immutable_once_set_witness :
    Inv (runCalls [] emptyState)
    ∧ ownerIs keepHandleState kUser kUser
    ∧ ownerIs ((processInstruction (fun _ => 1) orcGeFalse withdrawAccounts
        (2 :: [4,0,0,0,0,0,0,0]) keepHandleState).state) kUser kUser := by
  have hInv : Inv keepHandleState := by
    intro u
    by_cases h : u = kUser
    · subst h
      exact Or.inr (Or.inl (by decide))
    · left
      simp [keepHandleState, Addr.userDepositPda.injEq, h]
  have hown : ownerIs keepHandleState kUser kUser :=
    ⟨by decide, by decide, by decide⟩
  refine ⟨owner_immutable_once_set.1 emptyState (fun u => rfl) [], hown, ?_⟩
  exact owner_immutable_once_set.2.2.1 keepHandleState
    ⟨fun _ => 1, orcGeFalse, withdrawAccounts, 2 :: [4,0,0,0,0,0,0,0]⟩
    kUser kUser hInv hown

end Void
